import Mathlib

/-!
Shallow embedding of the WAAAH repository, a pair of one-shot patch scripts:

* `src/update_repo.py` reads one TypeScript file, performs two guarded
  string replacements (an interface-method insertion and a class-method
  insertion, each inserted immediately before a textual anchor and each
  guarded by the absence of the inserted text itself), and writes the
  resulting content back unconditionally.
* `src/update_lifecycle.py` is intended to insert a block of methods before
  the anchor `  private persistUpdate(task: Task): void \x7b`, guarded by
  the absence of the marker `ackTask`; its `methods` string literal is
  however never terminated, so the script is not syntactically valid Python.

File texts are modelled as `List Char`.  Python `x in s` is the substring
test, modelled by `x <:+: s` (`List.IsInfix`).  Python `s.replace(old, new)`
replaces every non-overlapping occurrence of `old` left to right; it is
modelled by `pyReplace` below.  The recursion of the scan is made structural
by a fuel parameter that is always instantiated with the length of the
scanned text, which is an upper bound on the number of scan steps because
every step consumes at least one character; the fuel-zero fallback is dead
code under that instantiation.
-/

set_option maxRecDepth 100000

namespace Waaah

/-- One left-to-right scan step of Python `str.replace` for a nonempty
pattern `old`: if `old` is a prefix of the remaining input, emit `new` and
continue after the matched occurrence (non-overlapping); otherwise emit one
character and continue.  `fuel` only bounds the recursion; it never runs out
when it is at least the length of the input. -/
def replaceAux (old new : List Char) : Nat → List Char → List Char
  | _, [] => []
  | 0, s => s
  | fuel + 1, c :: rest =>
    if old <+: c :: rest
    then new ++ replaceAux old new fuel (rest.drop (old.length - 1))
    else c :: replaceAux old new fuel rest

/-- Python `s.replace(old, new)`: every non-overlapping occurrence of `old`
in `s` is replaced by `new`, scanning left to right.  Python treats an empty
`old` specially: `new` is inserted before every character of `s` and once at
the end. -/
def pyReplace (s old new : List Char) : List Char :=
  if old = [] then new ++ s.flatMap (fun c => c :: new)
  else replaceAux old new s.length s

/-- Number of positions of `s` at which `old` occurs (all positions,
overlapping ones included). -/
def countOcc (old : List Char) : List Char → Nat
  | [] => 0
  | c :: rest => (if old <+: c :: rest then 1 else 0) + countOcc old rest

/-- Tail-recursive test that `old` occurs as a contiguous substring of the
scanned list.  It is used for scanning the full source text of
`update_lifecycle.py`, where evaluation must run in constant stack. -/
def hasOccur (old : List Char) : List Char → Bool
  | [] => decide (old = [])
  | c :: rest => decide (old <+: c :: rest) || hasOccur old rest

/-- The guarded in-place patch operation both scripts implement: when the
idempotency `marker` already occurs in `content` (Python `marker in content`)
the content is left unchanged; otherwise every occurrence of `anchor` is
replaced by `insertion ++ anchor` (Python
`content.replace(anchor, insertion + anchor)`), i.e. `insertion` is spliced
in immediately before the anchor. -/
def applyPatch (marker anchor insertion content : List Char) : List Char :=
  if marker <:+: content then content
  else pyReplace content anchor (insertion ++ anchor)

/-- The tagged outcome the spec calls `ApplyResult` (the scripts report
nothing; `IOFailure` is out of scope of the pure content transformation). -/
inductive ApplyResult where
  | Applied : List Char → ApplyResult
  | AlreadyApplied : ApplyResult
  | AnchorNotFound : ApplyResult
deriving DecidableEq

/-- Whether an `ApplyResult` is `Applied`. -/
def ApplyResult.isApplied : ApplyResult → Bool
  | .Applied _ => true
  | _ => false

/-- Classification of one guarded patch by the branch structure of the code,
tagged with the result names of the spec: marker present means the guard
skips (`AlreadyApplied`); otherwise the replace rewrites the content iff the
anchor occurs (`Applied`, carrying the resulting content) and silently
no-ops iff it does not (`AnchorNotFound`). -/
def applyReport (marker anchor insertion content : List Char) : ApplyResult :=
  if marker <:+: content then .AlreadyApplied
  else if anchor <:+: content then
    .Applied (pyReplace content anchor (insertion ++ anchor))
  else .AnchorNotFound

/-- Result of one script run against one file: whether the file was opened
for writing and written, and the content it holds afterwards. -/
structure RunOutcome where
  written : Bool
  content : List Char
deriving DecidableEq

/-- One script run: read the full file text, transform it, then open the
file for writing and write the transformed text back.  The write statements
(lines 32 and 33 of `update_repo.py`, lines 60 and 61 of
`update_lifecycle.py`) are unconditional: they execute whether or not any
replace fired. -/
def scriptRun (transform : List Char → List Char) (fileText : List Char) :
    RunOutcome :=
  ⟨true, transform fileText⟩

/-- Line 10 of `update_repo.py`. -/
def interface_target : List Char :=
  "  /** Get task history with filtering and search */".toList

/-- Lines 11 to 13 of `update_repo.py` (contents of the triple-quoted
string). -/
def interface_insert : List Char :=
  ("  /** Get all agents that are currently assigned tasks (Active only) */\n  getBusyAgentIds(): string[];\n").toList

/-- Line 16 of `update_repo.py`. -/
def class_target : List Char :=
  "  getHistory(options: \x7b status?: TaskStatus | \x27ACTIVE\x27; limit?: number; offset?: number; agentId?: string; search?: string \x7d): Task[] \x7b".toList

/-- Lines 17 to 24 of `update_repo.py` (contents of the triple-quoted
string). -/
def class_insert : List Char :=
  ("  getBusyAgentIds(): string[] \x7b\n    const rows = this.database.prepare(\n      \x60SELECT DISTINCT assignedTo FROM tasks WHERE status IN (\x27ASSIGNED\x27, \x27IN_PROGRESS\x27, \x27PENDING_ACK\x27) AND assignedTo IS NOT NULL\x60\n    ).all() as any[];\n    return rows.map(r => r.assignedTo);\n  \x7d\n\n").toList

/-- Lines 26 and 27 of `update_repo.py`: the interface insertion, guarded by
the absence of the inserted text itself (marker = insertion). -/
def repoStep1 (content : List Char) : List Char :=
  applyPatch interface_insert interface_target interface_insert content

/-- Lines 29 and 30 of `update_repo.py`: the class insertion, guarded by the
absence of the inserted text itself, applied to the output of the interface
step. -/
def repoStep2 (content : List Char) : List Char :=
  applyPatch class_insert class_target class_insert content

/-- The full content transformation of `update_repo.py`: the interface
insertion, then the class insertion on its output. -/
def repoTransform (content : List Char) : List Char :=
  repoStep2 (repoStep1 content)

/-- A run of `update_repo.py` against a file holding `fileText`. -/
def repoRun (fileText : List Char) : RunOutcome :=
  scriptRun repoTransform fileText

/-- Line 55 of `update_lifecycle.py`: the anchor of the lifecycle patch. -/
def lc_target : List Char :=
  "  private persistUpdate(task: Task): void \x7b".toList

/-- The idempotency marker of the lifecycle patch (line 57 of
`update_lifecycle.py` tests `"ackTask" not in content`). -/
def ackMarker : List Char := "ackTask".toList

/-- The content transformation described by lines 57 and 58 of
`update_lifecycle.py`, parameterised by the text of the `methods` literal:
the literal itself is unterminated (see `lifecycle_methods_unterminated`),
so it denotes no string and the script as a whole never runs. -/
def lifecycleTransform (methods content : List Char) : List Char :=
  applyPatch ackMarker lc_target (methods ++ "\n".toList) content

/-- The 64 newline-separated parts of the text of `src/update_lifecycle.py`
(the file ends with two newline bytes, hence the two final empty parts).
Characters escaped with \x are: \x22 the double quote, \x27 the apostrophe,
\x60 the backtick, \x7b and \x7d the braces. -/
def lifecycleLines : List String := [
  "",
  "import os",
  "",
  "file_path = \x22.worktrees/feature-task-1768089767889-rn7jmx/packages/mcp-server/src/state/services/task-lifecycle-service.ts\x22",
  "",
  "with open(file_path, \x27r\x27) as f:",
  "    content = f.read()",
  "",
  "# Methods to add",
  "methods = \x22\x22\x22",
  "  resetStaleTasks(): void \x7b",
  "    try \x7b",
  "      // Reset PENDING_ACK tasks to QUEUED",
  "      const stale = this.repo.getByStatus(\x27PENDING_ACK\x27);",
  "      for (const task of stale) \x7b",
  "        console.log(\x60[TaskLifecycle] Resetting PENDING_ACK task $\x7btask.id\x7d to QUEUED on startup\x60);",
  "        this.updateStatus(task.id, \x27QUEUED\x27);",
  "      \x7d",
  "      ",
  "      // Reset waiting agents",
  "      this.persistence.resetWaitingAgents();",
  "    \x7d catch (e: any) \x7b",
  "      console.error(\x60[TaskLifecycle] Failed to reset stale state: $\x7be.message\x7d\x60);",
  "    \x7d",
  "  \x7d",
  "",
  "  ackTask(taskId: string, agentId: string): \x7b success: boolean; error?: string \x7d \x7b",
  "    const task = this.repo.getById(taskId);",
  "",
  "    if (!task) \x7b",
  "      return \x7b success: false, error: \x27Task not found\x27 \x7d;",
  "    \x7d",
  "",
  "    if (task.status !== \x27PENDING_ACK\x27) \x7b",
  "      return \x7b success: false, error: \x27Task is not in PENDING_ACK state\x27 \x7d;",
  "    \x7d",
  "",
  "    const pendingAck = this.persistence.getPendingAcks().get(taskId);",
  "    if (!pendingAck || pendingAck.agentId !== agentId) \x7b",
  "      return \x7b success: false, error: \x60ACK failed: Expected agent $\x7bpendingAck?.agentId\x7d but got $\x7bagentId\x7d\x60 \x7d;",
  "    \x7d",
  "",
  "    // Success: Transition to ASSIGNED",
  "    // Use updateStatus to handle history/logging and assignment",
  "    this.updateStatus(taskId, \x27ASSIGNED\x27, undefined, agentId);",
  "    ",
  "    // Clear pending ACK flags",
  "    this.persistence.clearPendingAck(taskId);",
  "",
  "    console.log(\x60[TaskLifecycle] Task $\x7btaskId\x7d ACKed by $\x7bagentId\x7d, now ASSIGNED\x60);",
  "    return \x7b success: true \x7d;",
  "  \x7d",
  "\x22",
  "",
  "target = \x22  private persistUpdate(task: Task): void \x7b\x22",
  "",
  "if \x22ackTask\x22 not in content:",
  "    content = content.replace(target, methods + \x22\\n\x22 + target)",
  "",
  "with open(file_path, \x27w\x27) as f:",
  "    f.write(content)",
  "print(\x22Updated task-lifecycle-service.ts\x22)",
  "",
  ""
]

/-- The full text of `src/update_lifecycle.py`. -/
def lifecycleSource : List Char :=
  (String.intercalate "\n" lifecycleLines).toList

/-- Three consecutive double-quote characters, the Python delimiter that
opens and closes the `methods` string literal. -/
def tripleQuote : List Char := "\x22\x22\x22".toList

/-- Lines 1 to 9 of `src/update_lifecycle.py` followed by line 10 up to and
including the `\x22\x22\x22` that opens the `methods` string literal. -/
def methodsOpenPrefix : List Char :=
  (String.intercalate "\n" (lifecycleLines.take 9) ++ "\nmethods = \x22\x22\x22").toList

/-- Everything in `src/update_lifecycle.py` after the opening delimiter of
the `methods` string literal. -/
def methodsLiteralBody : List Char :=
  lifecycleSource.drop methodsOpenPrefix.length

/-! General lemmas about the embedded string primitives. -/

/-- A prefix of a list is in particular a contiguous substring of it. -/
theorem prefix_to_sub {l₁ l₂ : List Char} (h : l₁ <+: l₂) : l₁ <:+: l₂ :=
  h.isInfix

/-- The tail-recursive scanner `hasOccur` decides the substring relation. -/
theorem hasOccur_iff (old : List Char) :
    ∀ s : List Char, hasOccur old s = true ↔ old <:+: s
  | [] => by simp [hasOccur, List.infix_nil]
  | c :: rest => by
      rw [List.infix_cons_iff]
      simp [hasOccur, hasOccur_iff old rest]

theorem replaceAux_nil (old new : List Char) (fuel : Nat) :
    replaceAux old new fuel [] = [] := by
  cases fuel <;> rfl

theorem replaceAux_cons_pos (old new : List Char) (fuel : Nat) {c : Char}
    {rest : List Char} (h : old <+: c :: rest) :
    replaceAux old new (fuel + 1) (c :: rest)
      = new ++ replaceAux old new fuel (rest.drop (old.length - 1)) := by
  simp [replaceAux, h]

theorem replaceAux_cons_neg (old new : List Char) (fuel : Nat) {c : Char}
    {rest : List Char} (h : ¬ old <+: c :: rest) :
    replaceAux old new (fuel + 1) (c :: rest)
      = c :: replaceAux old new fuel rest := by
  simp [replaceAux, h]

/-- A scan step over a text the pattern heads: one occurrence is consumed. -/
theorem replaceAux_step (old new : List Char) (fuel : Nat) {s : List Char}
    (hne : old ≠ []) (h : old <+: s) :
    replaceAux old new (fuel + 1) s
      = new ++ replaceAux old new fuel (s.drop old.length) := by
  cases s with
  | nil => exact absurd (List.prefix_nil.mp h) hne
  | cons c rest =>
      rw [replaceAux_cons_pos old new fuel h]
      cases old with
      | nil => exact absurd rfl hne
      | cons o os => simp

/-- A text without any occurrence of the pattern is scanned unchanged. -/
theorem replaceAux_skip (old new : List Char) :
    ∀ (fuel : Nat) (s : List Char), ¬ old <:+: s → replaceAux old new fuel s = s
  | 0, s, _ => by cases s <;> rfl
  | _ + 1, [], _ => rfl
  | fuel + 1, c :: rest, h => by
      rw [replaceAux_cons_neg old new fuel fun hp => h (prefix_to_sub hp),
        replaceAux_skip old new fuel rest fun hi => h (List.infix_cons hi)]

/-- Replacement by a pattern at least as long never shortens the text. -/
theorem replaceAux_len_ge (old new : List Char) (hne : old ≠ [])
    (hlen : old.length ≤ new.length) :
    ∀ (fuel : Nat) (s : List Char), s.length ≤ fuel →
      s.length ≤ (replaceAux old new fuel s).length
  | 0, s, hf => by
      have hs : s = [] := List.length_eq_zero.mp (Nat.le_zero.mp hf)
      subst hs
      simp [replaceAux_nil]
  | fuel + 1, [], _ => by simp [replaceAux_nil]
  | fuel + 1, c :: rest, hf => by
      by_cases hp : old <+: c :: rest
      · rw [replaceAux_cons_pos old new fuel hp]
        have h1 : old.length ≤ rest.length + 1 := by simpa using hp.length_le
        have h2 : 1 ≤ old.length := List.length_pos.mpr hne
        have h3 : (rest.drop (old.length - 1)).length ≤ fuel := by
          simp only [List.length_drop]
          simp only [List.length_cons] at hf
          omega
        have ih := replaceAux_len_ge old new hne hlen fuel
          (rest.drop (old.length - 1)) h3
        simp only [List.length_append, List.length_cons, List.length_drop] at ih ⊢
        omega
      · rw [replaceAux_cons_neg old new fuel hp]
        have hr : rest.length ≤ fuel := by
          simp only [List.length_cons] at hf
          omega
        have ih := replaceAux_len_ge old new hne hlen fuel rest hr
        simp only [List.length_cons]
        omega

/-- Replacement by a strictly longer pattern strictly lengthens a text in
which the pattern occurs. -/
theorem replaceAux_len_gt (old new : List Char) (hne : old ≠ [])
    (hlen : old.length < new.length) :
    ∀ (fuel : Nat) (s : List Char), s.length ≤ fuel → old <:+: s →
      s.length < (replaceAux old new fuel s).length
  | _, [], _, hocc => absurd (List.infix_nil.mp hocc) hne
  | 0, _ :: _, hf, _ => by simp at hf
  | fuel + 1, c :: rest, hf, hocc => by
      by_cases hp : old <+: c :: rest
      · rw [replaceAux_cons_pos old new fuel hp]
        have h1 : old.length ≤ rest.length + 1 := by simpa using hp.length_le
        have h2 : 1 ≤ old.length := List.length_pos.mpr hne
        have h3 : (rest.drop (old.length - 1)).length ≤ fuel := by
          simp only [List.length_drop]
          simp only [List.length_cons] at hf
          omega
        have hge := replaceAux_len_ge old new hne (Nat.le_of_lt hlen) fuel
          (rest.drop (old.length - 1)) h3
        simp only [List.length_append, List.length_cons, List.length_drop] at hge ⊢
        omega
      · have hrest : old <:+: rest := (List.infix_cons_iff.mp hocc).resolve_left hp
        rw [replaceAux_cons_neg old new fuel hp]
        have hr : rest.length ≤ fuel := by
          simp only [List.length_cons] at hf
          omega
        have ih := replaceAux_len_gt old new hne hlen fuel rest hr hrest
        simp only [List.length_cons]
        omega

/-- After a scan over a text in which the pattern occurs, the replacement
text occurs in the result. -/
theorem replaceAux_has_new (old new : List Char) (hne : old ≠ []) :
    ∀ (fuel : Nat) (s : List Char), s.length ≤ fuel → old <:+: s →
      new <:+: replaceAux old new fuel s
  | _, [], _, hocc => absurd (List.infix_nil.mp hocc) hne
  | 0, _ :: _, hf, _ => by simp at hf
  | fuel + 1, c :: rest, hf, hocc => by
      by_cases hp : old <+: c :: rest
      · rw [replaceAux_cons_pos old new fuel hp]
        exact prefix_to_sub (List.prefix_append new _)
      · rw [replaceAux_cons_neg old new fuel hp]
        have hrest : old <:+: rest := (List.infix_cons_iff.mp hocc).resolve_left hp
        have hr : rest.length ≤ fuel := by
          simp only [List.length_cons] at hf
          omega
        exact List.infix_cons (replaceAux_has_new old new hne fuel rest hr hrest)

theorem countOcc_cons_pos {old : List Char} {c : Char} {rest : List Char}
    (h : old <+: c :: rest) :
    countOcc old (c :: rest) = 1 + countOcc old rest := by
  simp [countOcc, h]

theorem countOcc_cons_neg {old : List Char} {c : Char} {rest : List Char}
    (h : ¬ old <+: c :: rest) :
    countOcc old (c :: rest) = countOcc old rest := by
  simp [countOcc, h]

theorem countOcc_le_append (old : List Char) :
    ∀ (p t : List Char), countOcc old t ≤ countOcc old (p ++ t)
  | [], _ => Nat.le_refl _
  | c :: p, t => by
      rw [List.cons_append]
      show countOcc old t ≤ countOcc old (c :: (p ++ t))
      simp only [countOcc]
      exact Nat.le_trans (countOcc_le_append old p t) (Nat.le_add_left _ _)

theorem countOcc_pos (old : List Char) (hne : old ≠ []) {s : List Char}
    (hocc : old <:+: s) : 1 ≤ countOcc old s := by
  obtain ⟨u, v, huv⟩ := hocc
  have h2 : countOcc old (old ++ v) ≤ countOcc old s := by
    rw [← huv, List.append_assoc]
    exact countOcc_le_append old u (old ++ v)
  refine Nat.le_trans ?_ h2
  cases old with
  | nil => exact absurd rfl hne
  | cons o os =>
      have hpre : (o :: os) <+: o :: (os ++ v) := by
        rw [← List.cons_append]
        exact List.prefix_append _ _
      simp [countOcc, List.cons_append, hpre]

theorem not_occ_of_countOcc_zero (old : List Char) (hne : old ≠ [])
    {s : List Char} (h : countOcc old s = 0) : ¬ old <:+: s :=
  fun hocc => by
    have := countOcc_pos old hne hocc
    omega

/-- When the pattern occurs exactly once, the scan replaces exactly that
occurrence and keeps every other byte. -/
theorem replaceAux_unique (old new : List Char) (hne : old ≠ []) :
    ∀ (p : List Char) (fuel : Nat) (s : List Char),
      countOcc old (p ++ old ++ s) = 1 → (p ++ old ++ s).length ≤ fuel →
      replaceAux old new fuel (p ++ old ++ s) = p ++ new ++ s
  | [], fuel, s, hcnt, hf => by
      simp only [List.nil_append] at hcnt hf ⊢
      cases fuel with
      | zero =>
          exfalso
          have h2 : 1 ≤ old.length := List.length_pos.mpr hne
          simp only [List.length_append] at hf
          omega
      | succ f =>
          rw [replaceAux_step old new f hne (List.prefix_append old s),
            List.drop_left]
          have hs0 : countOcc old s = 0 := by
            cases old with
            | nil => exact absurd rfl hne
            | cons o os =>
                have hpre : (o :: os) <+: o :: (os ++ s) := by
                  rw [← List.cons_append]
                  exact List.prefix_append _ _
                have hle := countOcc_le_append (o :: os) os s
                rw [List.cons_append, countOcc_cons_pos hpre] at hcnt
                omega
          rw [replaceAux_skip old new f s (not_occ_of_countOcc_zero old hne hs0)]
  | c :: p, fuel, s, hcnt, hf => by
      have hocc2 : old <:+: p ++ old ++ s := ⟨p, s, rfl⟩
      have hpos := countOcc_pos old hne hocc2
      simp only [List.cons_append] at hcnt hf ⊢
      have hnp : ¬ old <+: c :: (p ++ old ++ s) := by
        intro hp
        rw [countOcc_cons_pos hp] at hcnt
        omega
      rw [countOcc_cons_neg hnp] at hcnt
      cases fuel with
      | zero =>
          exfalso
          simp only [List.length_cons] at hf
          omega
      | succ f =>
          rw [replaceAux_cons_neg old new f hnp]
          have hf2 : (p ++ old ++ s).length ≤ f := by
            simp only [List.length_cons] at hf
            omega
          rw [replaceAux_unique old new hne p f s hcnt hf2]

/-- Scanning the pattern itself yields exactly the replacement text. -/
theorem replaceAux_self (old new : List Char) (hne : old ≠ []) :
    ∀ fuel : Nat, old.length ≤ fuel → replaceAux old new fuel old = new
  | 0, hf => by
      exfalso
      have h2 : 1 ≤ old.length := List.length_pos.mpr hne
      omega
  | fuel + 1, _ => by
      rw [replaceAux_step old new fuel hne (List.prefix_refl old),
        List.drop_length, replaceAux_nil, List.append_nil]

/-- Scanning two adjacent copies of the pattern replaces both. -/
theorem replaceAux_double (old new : List Char) (hne : old ≠ []) :
    ∀ fuel : Nat, (old ++ old).length ≤ fuel →
      replaceAux old new fuel (old ++ old) = new ++ new
  | 0, hf => by
      exfalso
      have h2 : 1 ≤ old.length := List.length_pos.mpr hne
      simp only [List.length_append] at hf
      omega
  | fuel + 1, hf => by
      rw [replaceAux_step old new fuel hne (List.prefix_append old old),
        List.drop_left]
      have h2 : 1 ≤ old.length := List.length_pos.mpr hne
      have hof : old.length ≤ fuel := by
        simp only [List.length_append] at hf
        omega
      rw [replaceAux_self old new hne fuel hof]

theorem flatMap_cons_len (new : List Char) :
    ∀ s : List Char, s.length ≤ (s.flatMap fun c => c :: new).length
  | [] => Nat.le_refl _
  | c :: rest => by
      simp only [List.flatMap_cons, List.length_append, List.length_cons]
      have := flatMap_cons_len new rest
      omega

/-! Lemmas about `pyReplace` (Python `str.replace`). -/

theorem pyReplace_skip {s old : List Char} (new : List Char)
    (h : ¬ old <:+: s) : pyReplace s old new = s := by
  have hne : old ≠ [] := fun he => h (he ▸ ⟨[], s, rfl⟩)
  simp only [pyReplace, if_neg hne]
  exact replaceAux_skip old new s.length s h

theorem pyReplace_len_ge {old new : List Char} (hlen : old.length ≤ new.length)
    (s : List Char) : s.length ≤ (pyReplace s old new).length := by
  by_cases hne : old = []
  · subst hne
    have h1 := flatMap_cons_len new s
    unfold pyReplace
    rw [if_pos rfl, List.length_append]
    omega
  · simp only [pyReplace, if_neg hne]
    exact replaceAux_len_ge old new hne hlen s.length s (Nat.le_refl _)

theorem pyReplace_len_gt {old new : List Char} (hlen : old.length < new.length)
    {s : List Char} (hocc : old <:+: s) :
    s.length < (pyReplace s old new).length := by
  by_cases hne : old = []
  · subst hne
    have h1 := flatMap_cons_len new s
    simp only [List.length_nil] at hlen
    unfold pyReplace
    rw [if_pos rfl, List.length_append]
    omega
  · simp only [pyReplace, if_neg hne]
    exact replaceAux_len_gt old new hne hlen s.length s (Nat.le_refl _) hocc

theorem pyReplace_has_new {old : List Char} (new : List Char) {s : List Char}
    (hocc : old <:+: s) : new <:+: pyReplace s old new := by
  by_cases hne : old = []
  · subst hne
    unfold pyReplace
    rw [if_pos rfl]
    exact prefix_to_sub (List.prefix_append new _)
  · simp only [pyReplace, if_neg hne]
    exact replaceAux_has_new old new hne s.length s (Nat.le_refl _) hocc

theorem pyReplace_unique {old : List Char} (new : List Char) (hne : old ≠ [])
    (p s : List Char) (hcnt : countOcc old (p ++ old ++ s) = 1) :
    pyReplace (p ++ old ++ s) old new = p ++ new ++ s := by
  simp only [pyReplace, if_neg hne]
  exact replaceAux_unique old new hne p _ s hcnt (Nat.le_refl _)

theorem pyReplace_double {old : List Char} (new : List Char) (hne : old ≠ []) :
    pyReplace (old ++ old) old new = new ++ new := by
  simp only [pyReplace, if_neg hne]
  exact replaceAux_double old new hne _ (Nat.le_refl _)

/-! Lemmas about the guarded patch operation and its reporting. -/

theorem applyPatch_marker_skip {m c : List Char} (a i : List Char)
    (h : m <:+: c) : applyPatch m a i c = c := by
  simp [applyPatch, h]

theorem applyPatch_noop {m a c : List Char} (i : List Char)
    (hm : ¬ m <:+: c) (ha : ¬ a <:+: c) : applyPatch m a i c = c := by
  simp only [applyPatch, if_neg hm]
  exact pyReplace_skip _ ha

theorem applyPatch_splice {m a c : List Char} (i : List Char)
    (hm : ¬ m <:+: c) : applyPatch m a i c = pyReplace c a (i ++ a) := by
  simp [applyPatch, hm]

theorem applyPatch_len_ge (m a i c : List Char) :
    c.length ≤ (applyPatch m a i c).length := by
  by_cases hm : m <:+: c
  · simp [applyPatch, hm]
  · simp only [applyPatch, if_neg hm]
    refine pyReplace_len_ge ?_ c
    simp only [List.length_append]
    omega

theorem applyPatch_len_gt {m a c : List Char} (i : List Char)
    (hm : ¬ m <:+: c) (ha : a <:+: c) (hi : i ≠ []) :
    c.length < (applyPatch m a i c).length := by
  simp only [applyPatch, if_neg hm]
  refine pyReplace_len_gt ?_ ha
  have := List.length_pos.mpr hi
  simp only [List.length_append]
  omega

/-- When the marker occurs in the insertion (the invariant of the spec) and
the anchor occurs in the content, the patched content contains the marker. -/
theorem applyPatch_marker_after {m a i c : List Char} (hmi : m <:+: i)
    (ha : a <:+: c) : m <:+: applyPatch m a i c := by
  by_cases hm : m <:+: c
  · rw [applyPatch_marker_skip a i hm]
    exact hm
  · simp only [applyPatch, if_neg hm]
    exact hmi.trans ((prefix_to_sub (List.prefix_append i a)).trans
      (pyReplace_has_new (i ++ a) ha))

theorem applyReport_already {m c : List Char} (a i : List Char)
    (h : m <:+: c) : applyReport m a i c = .AlreadyApplied := by
  simp [applyReport, h]

theorem applyReport_not_found {m a c : List Char} (i : List Char)
    (hm : ¬ m <:+: c) (ha : ¬ a <:+: c) :
    applyReport m a i c = .AnchorNotFound := by
  simp [applyReport, hm, ha]

theorem applyReport_applied {m a c : List Char} (i : List Char)
    (hm : ¬ m <:+: c) (ha : a <:+: c) :
    applyReport m a i c = .Applied (pyReplace c a (i ++ a)) := by
  simp [applyReport, hm, ha]

theorem applyReport_not_found_elim {m a i c : List Char}
    (h : applyReport m a i c = .AnchorNotFound) : ¬ m <:+: c ∧ ¬ a <:+: c := by
  by_cases hm : m <:+: c
  · rw [applyReport_already a i hm] at h
    exact absurd h (by simp)
  · by_cases ha : a <:+: c
    · rw [applyReport_applied i hm ha] at h
      exact absurd h (by simp)
    · exact ⟨hm, ha⟩

/-- A patch whose report is not `Applied` leaves the content unchanged. -/
theorem applyPatch_of_not_applied {m a i c : List Char}
    (h : (applyReport m a i c).isApplied = false) : applyPatch m a i c = c := by
  by_cases hm : m <:+: c
  · exact applyPatch_marker_skip a i hm
  · by_cases ha : a <:+: c
    · rw [applyReport_applied i hm ha] at h
      exact absurd h (by simp [ApplyResult.isApplied])
    · exact applyPatch_noop i hm ha

/-- For a nonempty insertion, a patch leaves the content unchanged exactly
when the marker is present or the anchor is absent. -/
theorem applyPatch_eq_self_iff {m a c : List Char} (i : List Char)
    (hi : i ≠ []) :
    applyPatch m a i c = c ↔ (m <:+: c ∨ ¬ a <:+: c) := by
  constructor
  · intro he
    by_cases hm : m <:+: c
    · exact Or.inl hm
    · by_cases ha : a <:+: c
      · exfalso
        have hlt := applyPatch_len_gt i hm ha hi
        rw [he] at hlt
        omega
      · exact Or.inr ha
  · intro h
    by_cases hm : m <:+: c
    · exact applyPatch_marker_skip a i hm
    · exact applyPatch_noop i hm (h.resolve_left hm)

/-! Claim theorems. -/

/-- C7: for every file text that already contains the idempotency marker of
the patch anywhere, the guard skips the insertion and the outcome is
`AlreadyApplied` with no text change, no matter whether and where the anchor
occurs in the text. -/
theorem c7_marker_forces_skip (m a i t : List Char) (h : m <:+: t) :
    applyReport m a i t = .AlreadyApplied ∧ applyPatch m a i t = t :=
  ⟨applyReport_already a i h, applyPatch_marker_skip a i h⟩

/-- Witness for C7 at the lifecycle patch: a text containing the marker
`ackTask` (here even together with the anchor) is reported `AlreadyApplied`
and left unchanged. -/
theorem c7_marker_forces_skip_witness :
    ackMarker <:+: ackMarker ++ lc_target ∧
    (applyReport ackMarker lc_target ("x".toList) (ackMarker ++ lc_target)
        = .AlreadyApplied ∧
      applyPatch ackMarker lc_target ("x".toList) (ackMarker ++ lc_target)
        = ackMarker ++ lc_target) :=
  ⟨by decide, c7_marker_forces_skip _ _ _ _ (by decide)⟩

/-- C4: for every file text containing neither the anchor nor the marker of
the patch, the outcome is `AnchorNotFound`, the resulting text equals the
input, and the run writes that unchanged text back, so the file on disk is
identical to the input. -/
theorem c4_anchor_not_found_nondestructive (m a i t : List Char)
    (hm : ¬ m <:+: t) (ha : ¬ a <:+: t) :
    applyReport m a i t = .AnchorNotFound ∧ applyPatch m a i t = t ∧
      (scriptRun (applyPatch m a i) t).content = t :=
  ⟨applyReport_not_found i hm ha, applyPatch_noop i hm ha, by
    simpa [scriptRun] using applyPatch_noop i hm ha⟩

/-- Witness for C4 at the interface patch of `update_repo.py` on the one
character text `q`, which contains neither anchor nor marker. -/
theorem c4_anchor_not_found_nondestructive_witness :
    (¬ interface_insert <:+: "q".toList ∧ ¬ interface_target <:+: "q".toList) ∧
    (applyReport interface_insert interface_target interface_insert "q".toList
        = .AnchorNotFound ∧
      applyPatch interface_insert interface_target interface_insert "q".toList
        = "q".toList ∧
      (scriptRun (applyPatch interface_insert interface_target interface_insert)
          "q".toList).content = "q".toList) :=
  ⟨⟨by decide, by decide⟩,
    c4_anchor_not_found_nondestructive _ _ _ _ (by decide) (by decide)⟩

/-- C6: on a file text with exactly one occurrence of the (nonempty) anchor
and no occurrence of the marker, the patch splices the insertion in
immediately before the anchor: the result is the prefix, the insertion, the
anchor, the suffix, with every byte outside the inserted block unchanged,
and the outcome is `Applied` with exactly that text. -/
theorem c6_before_placement_splice (m a i p s : List Char) (ha : a ≠ [])
    (hm : ¬ m <:+: p ++ a ++ s) (hcnt : countOcc a (p ++ a ++ s) = 1) :
    applyPatch m a i (p ++ a ++ s) = p ++ i ++ a ++ s ∧
      applyReport m a i (p ++ a ++ s) = .Applied (p ++ i ++ a ++ s) := by
  have hocc : a <:+: p ++ a ++ s := ⟨p, s, rfl⟩
  constructor
  · rw [applyPatch_splice i hm, pyReplace_unique (i ++ a) ha p s hcnt]
    simp [List.append_assoc]
  · rw [applyReport_applied i hm hocc, pyReplace_unique (i ++ a) ha p s hcnt]
    simp [List.append_assoc]

/-- Witness for C6 at the lifecycle anchor with a one character prefix and
suffix around its unique occurrence. -/
theorem c6_before_placement_splice_witness :
    (lc_target ≠ [] ∧ ¬ ackMarker <:+: "p".toList ++ lc_target ++ "s".toList ∧
      countOcc lc_target ("p".toList ++ lc_target ++ "s".toList) = 1) ∧
    applyPatch ackMarker lc_target ("i".toList)
        ("p".toList ++ lc_target ++ "s".toList)
      = "p".toList ++ "i".toList ++ lc_target ++ "s".toList :=
  ⟨⟨by decide, by decide, by decide⟩,
    (c6_before_placement_splice ackMarker lc_target ("i".toList) ("p".toList)
      ("s".toList) (by decide) (by decide) (by decide)).1⟩

/-- C1 fails as stated: for the interface patch of `update_repo.py` and the
file text `x`, which contains neither the anchor nor the marker, applying
the patch to the result of applying it once is reported `AnchorNotFound`,
not `AlreadyApplied`. -/
theorem c1_counterexample :
    applyReport interface_insert interface_target interface_insert
        (applyPatch interface_insert interface_target interface_insert
          "x".toList)
      ≠ ApplyResult.AlreadyApplied := by
  decide

/-- C1 amended: under the marker-occurs-in-insertion invariant the spec
itself imposes on descriptors, applying twice yields the same text as
applying once, for every file text; and the second application is reported
`AlreadyApplied` whenever the marker or the anchor occurs in the input text.
When neither occurs, both applications instead report `AnchorNotFound` and
still leave the text unchanged. -/
theorem c1_idempotent_amended (m a i t : List Char) (hmi : m <:+: i) :
    applyPatch m a i (applyPatch m a i t) = applyPatch m a i t ∧
    ((m <:+: t ∨ a <:+: t) →
      applyReport m a i (applyPatch m a i t) = .AlreadyApplied) ∧
    (¬ m <:+: t → ¬ a <:+: t →
      applyReport m a i (applyPatch m a i t) = .AnchorNotFound) := by
  by_cases hm : m <:+: t
  · rw [applyPatch_marker_skip a i hm]
    exact ⟨applyPatch_marker_skip a i hm,
      fun _ => applyReport_already a i hm, fun hm2 _ => absurd hm hm2⟩
  · by_cases ha : a <:+: t
    · have hmark : m <:+: applyPatch m a i t := applyPatch_marker_after hmi ha
      exact ⟨applyPatch_marker_skip a i hmark,
        fun _ => applyReport_already a i hmark,
        fun _ ha2 => absurd ha ha2⟩
    · rw [applyPatch_noop i hm ha]
      exact ⟨applyPatch_noop i hm ha,
        fun hor => absurd (hor.resolve_left hm) ha,
        fun _ _ => applyReport_not_found i hm ha⟩

/-- Witness for the amended C1 at the interface patch of `update_repo.py`
(whose marker is its insertion) on the file text `x`. -/
theorem c1_idempotent_amended_witness :
    interface_insert <:+: interface_insert ∧
    applyPatch interface_insert interface_target interface_insert
        (applyPatch interface_insert interface_target interface_insert
          "x".toList)
      = applyPatch interface_insert interface_target interface_insert
          "x".toList :=
  ⟨by decide, (c1_idempotent_amended interface_insert interface_target
    interface_insert ("x".toList) (by decide)).1⟩

/-- C3 fails as stated: on the file text made of two adjacent copies of the
interface anchor, the interface patch of `update_repo.py` does not produce
the text with the insertion at only the first occurrence. -/
theorem c3_counterexample :
    applyPatch interface_insert interface_target interface_insert
        (interface_target ++ interface_target)
      ≠ interface_insert ++ (interface_target ++ interface_target) := by
  decide

/-- C3 amended: `content.replace` replaces every non-overlapping occurrence
of the anchor, not only the first: on a text made of two adjacent copies of
a nonempty anchor, a patch whose marker is absent from that text inserts the
insertion before both occurrences. -/
theorem c3_all_occurrences_amended (m a i : List Char) (ha : a ≠ [])
    (hm : ¬ m <:+: a ++ a) :
    applyPatch m a i (a ++ a) = (i ++ a) ++ (i ++ a) := by
  rw [applyPatch_splice i hm]
  exact pyReplace_double (i ++ a) ha

/-- Witness for the amended C3 at the interface patch of `update_repo.py`
on two adjacent copies of its anchor. -/
theorem c3_all_occurrences_amended_witness :
    (interface_target ≠ [] ∧
      ¬ interface_insert <:+: interface_target ++ interface_target) ∧
    applyPatch interface_insert interface_target interface_insert
        (interface_target ++ interface_target)
      = (interface_insert ++ interface_target)
          ++ (interface_insert ++ interface_target) :=
  ⟨⟨by decide, by decide⟩,
    c3_all_occurrences_amended interface_insert interface_target
      interface_insert (by decide) (by decide)⟩

/-- C9 fails as stated: the scripts implement no AFTER placement; the only
splice either script performs puts the insertion immediately before the
anchor, so on the AFTER scenario of the spec the patched text is not the
claimed `class A \x7b\n  foo() \x7b\x7d\n  bar() \x7b\x7d\n\x7d`. -/
theorem c9_counterexample :
    applyReport ("bar()".toList) ("foo() \x7b\x7d".toList)
        ("\n  bar() \x7b\x7d".toList)
        ("class A \x7b\n  foo() \x7b\x7d\n\x7d".toList)
      ≠ ApplyResult.Applied
          ("class A \x7b\n  foo() \x7b\x7d\n  bar() \x7b\x7d\n\x7d".toList) := by
  decide

/-- C9 amended: the patch operation the scripts define supports only
before-anchor placement; on the scenario of the spec (anchor
`foo() \x7b\x7d`, insertion `\n  bar() \x7b\x7d`, marker `bar()`, file
`class A \x7b\n  foo() \x7b\x7d\n\x7d`) it returns `Applied` with the
insertion spliced in immediately before the anchor. -/
theorem c9_before_only_amended :
    applyReport ("bar()".toList) ("foo() \x7b\x7d".toList)
        ("\n  bar() \x7b\x7d".toList)
        ("class A \x7b\n  foo() \x7b\x7d\n\x7d".toList)
      = ApplyResult.Applied
          ("class A \x7b\n  \n  bar() \x7b\x7dfoo() \x7b\x7d\n\x7d".toList) := by
  decide

/-- C5 fails as stated: on the file text `x` both patches of
`update_repo.py` report `AnchorNotFound`, yet the script still opens its
target for writing and performs a write. -/
theorem c5_counterexample :
    applyReport interface_insert interface_target interface_insert "x".toList
        = ApplyResult.AnchorNotFound ∧
      applyReport class_insert class_target class_insert
          (repoStep1 "x".toList) = ApplyResult.AnchorNotFound ∧
      (repoRun "x".toList).written = true :=
  ⟨by decide, by decide, rfl⟩

/-- C5 amended: `update_repo.py` opens its target for writing and writes on
every run, whatever the patch outcomes; but when neither patch reports
`Applied`, the bytes written are identical to the bytes read, so the write
never modifies the file content. -/
theorem c5_write_always_amended (c : List Char) :
    (repoRun c).written = true ∧
    ((applyReport interface_insert interface_target interface_insert
          c).isApplied = false →
      (applyReport class_insert class_target class_insert
          (repoStep1 c)).isApplied = false →
      (repoRun c).content = c) := by
  refine ⟨rfl, fun h1 h2 => ?_⟩
  have e1 : repoStep1 c = c := applyPatch_of_not_applied h1
  have e2 : repoStep2 (repoStep1 c) = repoStep1 c := applyPatch_of_not_applied h2
  show repoStep2 (repoStep1 c) = c
  rw [e2, e1]

/-- Witness for the amended C5 on the file text `x`: the run writes, and
writes back exactly `x`. -/
theorem c5_write_always_amended_witness :
    ((applyReport interface_insert interface_target interface_insert
          "x".toList).isApplied = false ∧
      (applyReport class_insert class_target class_insert
          (repoStep1 "x".toList)).isApplied = false) ∧
    ((repoRun "x".toList).written = true ∧
      (repoRun "x".toList).content = "x".toList) :=
  ⟨⟨by decide, by decide⟩,
    ⟨(c5_write_always_amended "x".toList).1,
      (c5_write_always_amended "x".toList).2 (by decide) (by decide)⟩⟩

/-- C8: the two patches of `update_repo.py` are applied strictly
sequentially on the same file content, the class patch reading the output of
the interface patch; an interface patch that fails with `AnchorNotFound`
does not prevent the class patch from being attempted and, when its anchor
is present and its marker absent, applied. -/
theorem c8_sequential_independence (c : List Char) :
    repoTransform c = repoStep2 (repoStep1 c) ∧
    (applyReport interface_insert interface_target interface_insert c
        = .AnchorNotFound →
      ¬ class_insert <:+: c → class_target <:+: c →
      applyReport class_insert class_target class_insert (repoStep1 c)
          = .Applied (pyReplace c class_target (class_insert ++ class_target))
        ∧ repoTransform c
            = pyReplace c class_target (class_insert ++ class_target)) := by
  refine ⟨rfl, fun h1 hci hct => ?_⟩
  obtain ⟨hm1, ha1⟩ := applyReport_not_found_elim h1
  have e1 : repoStep1 c = c := applyPatch_noop interface_insert hm1 ha1
  constructor
  · rw [e1]
    exact applyReport_applied class_insert hci hct
  · show repoStep2 (repoStep1 c) = _
    rw [e1]
    exact applyPatch_splice class_insert hci

/-- Witness for C8 on the file text consisting of the class anchor alone:
the interface patch reports `AnchorNotFound`, and the class patch is still
attempted and applied to its output. -/
theorem c8_sequential_independence_witness :
    (applyReport interface_insert interface_target interface_insert
          class_target = ApplyResult.AnchorNotFound ∧
      ¬ class_insert <:+: class_target ∧ class_target <:+: class_target) ∧
    applyReport class_insert class_target class_insert (repoStep1 class_target)
      = ApplyResult.Applied
          (pyReplace class_target class_target
            (class_insert ++ class_target)) :=
  ⟨⟨by decide, by decide, by decide⟩,
    ((c8_sequential_independence class_target).2 (by decide) (by decide)
      (by decide)).1⟩

/-- C10: `update_repo.py` always writes its target; the bytes written differ
from the bytes read precisely when the interface insertion is absent and the
interface anchor present in the input, or the class insertion is absent and
the class anchor present in the input; in every other case the file is
rewritten with byte-identical content. -/
theorem c10_change_characterization (c : List Char) :
    (repoRun c).written = true ∧
    ((repoRun c).content ≠ c ↔
      (¬ interface_insert <:+: c ∧ interface_target <:+: c) ∨
      (¬ class_insert <:+: c ∧ class_target <:+: c)) := by
  refine ⟨rfl, ?_⟩
  show repoTransform c ≠ c ↔ _
  constructor
  · intro hne
    by_contra hnor
    apply hne
    rw [not_or] at hnor
    obtain ⟨hA, hB⟩ := hnor
    rw [not_and_or, not_not] at hA hB
    have e1 : repoStep1 c = c :=
      (applyPatch_eq_self_iff interface_insert (by decide)).mpr hA
    have e2 : repoStep2 c = c :=
      (applyPatch_eq_self_iff class_insert (by decide)).mpr hB
    show repoStep2 (repoStep1 c) = c
    rw [e1, e2]
  · intro hd
    by_cases hA : ¬ interface_insert <:+: c ∧ interface_target <:+: c
    · have l1 : c.length < (repoStep1 c).length :=
        applyPatch_len_gt interface_insert hA.1 hA.2 (by decide)
      have l2 : (repoStep1 c).length ≤ (repoTransform c).length :=
        applyPatch_len_ge class_insert class_target class_insert (repoStep1 c)
      intro he
      have h3 : (repoTransform c).length = c.length := congrArg List.length he
      omega
    · have hB := hd.resolve_left hA
      rw [not_and_or, not_not] at hA
      have e1 : repoStep1 c = c :=
        (applyPatch_eq_self_iff interface_insert (by decide)).mpr hA
      have l1 : c.length < (repoStep2 c).length :=
        applyPatch_len_gt class_insert hB.1 hB.2 (by decide)
      intro he
      have he2 : repoStep2 c = c := by
        nth_rewrite 1 [← e1]
        exact he
      have h3 : (repoStep2 c).length = c.length := congrArg List.length he2
      omega

/-- C2: the triple-quoted string literal assigned to `methods` in
`update_lifecycle.py` is opened on line 10 and never terminated: the source
text splits as the prefix that ends with the opening `\x22\x22\x22` of line
10 followed by the literal body; line 53 of the file is a single double
quote; and no `\x22\x22\x22` occurs anywhere after the opening delimiter.
Python therefore fails to tokenize the file and raises `SyntaxError` before
executing any statement, so a run of the script never reads or writes its
target file, for every state of that file. -/
theorem c2_lifecycle_unterminated :
    methodsOpenPrefix ++ methodsLiteralBody = lifecycleSource ∧
    lifecycleLines.get? 52 = some "\x22" ∧
    ¬ tripleQuote <:+: methodsLiteralBody := by
  refine ⟨?_, by decide, ?_⟩
  · have h : lifecycleSource.take methodsOpenPrefix.length = methodsOpenPrefix := by
      decide
    conv_rhs =>
      rw [← List.take_append_drop methodsOpenPrefix.length lifecycleSource]
    rw [h]
    rfl
  · rw [← hasOccur_iff tripleQuote methodsLiteralBody]
    decide

end Waaah
